import Mathlib

/-!
A shallow embedding of the table-diff core of `compare.py` (functions
`report_diff`, `strip`, `diff_pd`) together with proofs about it.

Modelling conventions:

* A pandas cell value is `Value`: text, integer, or one of the two
  null encodings that `pd.isna` recognises (`nan` for float NaN, `null`
  for Python None).  Floats beyond NaN play no role in the properties
  below and are not modelled.
* A `Table` is a DataFrame before `set_index`: a column-name list plus
  positional rows.  A `KTable` is a DataFrame after `set_index`: the key
  column names (`idx`), the remaining value columns, and rows as
  (key tuple, values) pairs.
* `np.setdiff1d` and `np.intersect1d` additionally sort their result; the
  sorting only permutes rows and no property below depends on row or
  column order, so they are modelled as order-preserving filters.  The
  `pd.MultiIndex` and plain-index branches of `diff_pd` perform the same
  set operations and are modelled uniformly on key tuples.
* `drop_duplicates` compares rows with pandas `factorize` semantics:
  every null encoding is identified (`dupEqV`), other values compare
  structurally.
* Python `==` on scalars (`pyEq`) is false on NaN, true on None = None,
  structural on text and integers, false across types.
-/

namespace TableDiff

/-- Scalar cell values: text, integers, and the two missing-value
encodings recognised by `pd.isna` (float NaN and Python None). -/
inductive Value where
  | str (s : String)
  | int (n : Int)
  | nan
  | null
deriving DecidableEq

/-- `pd.isna` on a scalar: true exactly on the missing encodings. -/
def isna : Value → Bool
  | .nan => true
  | .null => true
  | _ => false

/-- Python `==` on scalars: NaN is unequal to everything (itself
included), None equals None, text and integers compare structurally,
values of different kinds are unequal. -/
def pyEq : Value → Value → Bool
  | .str s, .str t => decide (s = t)
  | .int m, .int n => decide (m = n)
  | .null, .null => true
  | _, _ => false

/-- Python `str()` of a scalar, as used by the f-string in `report_diff`. -/
def pyStr : Value → String
  | .str s => s
  | .int n => toString n
  | .nan => "nan"
  | .null => "None"

/-- `report_diff` from compare.py: keep the old value when the two agree
under Python equality or both are missing, otherwise render both values
around the literal arrow token. -/
def report_diff (a b : Value) : Value :=
  if pyEq a b || (isna a && isna b) then a
  else .str (pyStr a ++ " ---> " ++ pyStr b)

/-- Drop leading and trailing whitespace characters of a character list. -/
def trimChars (l : List Char) : List Char :=
  ((l.dropWhile Char.isWhitespace).reverse.dropWhile Char.isWhitespace).reverse

/-- Python `str.strip()`: the string without surrounding whitespace. -/
def pyStrip (s : String) : String := String.mk (trimChars s.data)

/-- `strip` from compare.py: trim surrounding whitespace of text cells,
leave every other value unchanged. -/
def strip : Value → Value
  | .str s => .str (pyStrip s)
  | v => v

/-- Row equality as used by `drop_duplicates` (pandas `factorize`
semantics): all null encodings are identified, other values compare
structurally. -/
def dupEqV (a b : Value) : Bool :=
  (isna a && isna b) || decide (a = b)

/-- Positional row equality under `dupEqV`; rows of different lengths are
never equal. -/
def rowDupEq : List Value → List Value → Bool
  | [], [] => true
  | a :: as, b :: bs => dupEqV a b && rowDupEq as bs
  | _, _ => false

/-- A (possibly composite) key tuple. -/
abbrev Key := List Value

/-- A DataFrame before `set_index`: named columns and positional rows. -/
structure Table where
  cols : List String
  rows : List (List Value)
deriving DecidableEq

/-- A DataFrame after `set_index`: the key column names, the remaining
value columns, and rows as (key tuple, values) pairs. -/
structure KTable where
  idx : List String
  cols : List String
  rows : List (Key × List Value)
deriving DecidableEq

/-- Look a column name up in an association of names to values.  Absent
names yield NaN, the pandas default for missing data. -/
def cellOf : List (String × Value) → String → Value
  | [], _ => .nan
  | p :: ps, c => if p.1 = c then p.2 else cellOf ps c

/-- The only failure of the core: a requested key column is absent.
pandas surfaces it as a `KeyError` raised by `set_index`. -/
inductive DiffError where
  | keyError (c : String)
deriving DecidableEq

/-- `DataFrame.set_index`: fail on the first requested key column that is
not a column of the table, otherwise re-key every row by the key tuple
and keep the remaining columns in order. -/
def set_index (t : Table) (idx : List String) : Except DiffError KTable :=
  match idx.find? (fun c => !(decide (c ∈ t.cols))) with
  | some c => .error (.keyError c)
  | none =>
    .ok { idx := idx,
          cols := t.cols.filter (fun c => !(decide (c ∈ idx))),
          rows := t.rows.map (fun r =>
            (idx.map (fun c => cellOf (t.cols.zip r) c),
             (t.cols.filter (fun c => !(decide (c ∈ idx)))).map
               (fun c => cellOf (t.cols.zip r) c))) }

/-- The list of key tuples of a keyed table, in row order. -/
def KTable.keyList (t : KTable) : List Key := t.rows.map (fun r => r.1)

/-- Cell of the row keyed `k` at column `c`; NaN when the key or the
column is absent (pandas missing-data default; every use below is
guarded by membership). -/
def KTable.cellD (t : KTable) (k : Key) (c : String) : Value :=
  match t.rows.find? (fun r => decide (r.1 = k)) with
  | some r => cellOf (t.cols.zip r.2) c
  | none => .nan

/-- `df.loc[keys, cols]`: select the given rows and columns. -/
def KTable.locKC (t : KTable) (ks : List Key) (cs : List String) : KTable :=
  { idx := t.idx, cols := cs,
    rows := ks.map (fun k => (k, cs.map (fun c => t.cellD k c))) }

/-- `df.applymap f`: apply `f` to every data cell (the key index is not a
data cell and is untouched, exactly as in the source). -/
def KTable.mapVals (t : KTable) (f : Value → Value) : KTable :=
  { t with rows := t.rows.map (fun r => (r.1, r.2.map f)) }

/-- `pd.DataFrame.empty`: true when either axis has length zero. -/
def KTable.isEmpty (t : KTable) : Bool := t.rows.isEmpty || t.cols.isEmpty

/-- Keys present in the old table and absent from the new one. -/
def removedKeysK (ko kn : KTable) : List Key :=
  ko.keyList.filter (fun k => !(decide (k ∈ kn.keyList)))

/-- Keys present in the new table and absent from the old one. -/
def addedKeysK (ko kn : KTable) : List Key :=
  kn.keyList.filter (fun k => !(decide (k ∈ ko.keyList)))

/-- Keys present in both tables, in old-table order. -/
def commonKeysK (ko kn : KTable) : List Key :=
  ko.keyList.filter (fun k => decide (k ∈ kn.keyList))

/-- Value columns present in both tables, in old-table order. -/
def commonColsK (ko kn : KTable) : List String :=
  ko.cols.filter (fun c => decide (c ∈ kn.cols))

/-- `old_df.loc[removed_keys]`: the removed result table. -/
def removedTableK (ko kn : KTable) : KTable :=
  ko.locKC (removedKeysK ko kn) ko.cols

/-- `new_df.loc[added_keys]`: the added result table. -/
def addedTableK (ko kn : KTable) : KTable :=
  kn.locKC (addedKeysK ko kn) kn.cols

/-- `old_df.loc[common_keys, common_columns].applymap(strip)`. -/
def oldCommonK (ko kn : KTable) : KTable :=
  ((ko.locKC (commonKeysK ko kn) (commonColsK ko kn)).mapVals strip)

/-- `new_df.loc[common_keys, common_columns].applymap(strip)`. -/
def newCommonK (ko kn : KTable) : KTable :=
  ((kn.locKC (commonKeysK ko kn) (commonColsK ko kn)).mapVals strip)

/-- `pd.concat([old_common.reset_index(), new_common.reset_index()])`:
stack the two stripped common frames, each row rendered with its key
columns back in front. -/
def combinedRows (ko kn : KTable) : List (List Value) :=
  ((oldCommonK ko kn).rows.map (fun r => r.1 ++ r.2)) ++
    ((newCommonK ko kn).rows.map (fun r => r.1 ++ r.2))

/-- First-occurrence deduplication with an accumulator of elements
already emitted, structurally recursive. -/
def dedupAux {α : Type} [DecidableEq α] (seen : List α) : List α → List α
  | [] => []
  | a :: as => if a ∈ seen then dedupAux seen as else a :: dedupAux (a :: seen) as

/-- First-occurrence deduplication, as `pandas.unique` /
`drop_duplicates` on the key columns. -/
def dedup {α : Type} [DecidableEq α] (l : List α) : List α := dedupAux [] l

/-- `common_data.drop_duplicates(keep=False)[idx_col]`, then `unique`:
the keys of the rows that survive dropping every duplicated row. -/
def changedKeysK (ko kn : KTable) : List Key :=
  dedup
    (((combinedRows ko kn).filter (fun r =>
        (combinedRows ko kn).countP (fun s => rowDupEq r s) == 1)).map
      (fun r => r.take ko.idx.length))

/-- Lines 74-81 of compare.py: for every changed key and every common
column, merge the (stripped) old and new cells with `report_diff`. -/
def changedTableK (ko kn : KTable) : KTable :=
  { idx := ko.idx, cols := commonColsK ko kn,
    rows := (changedKeysK ko kn).map (fun k =>
      (k, (commonColsK ko kn).map (fun c =>
        report_diff ((oldCommonK ko kn).cellD k c)
          ((newCommonK ko kn).cellD k c)))) }

/-- The `out_data` dictionary: each of the three result tables is added,
in source order, exactly when it is non-empty in the pandas sense. -/
def diff_pdK (ko kn : KTable) : List (String × KTable) :=
  (if (removedTableK ko kn).isEmpty then [] else [("removed", removedTableK ko kn)]) ++
    (if (addedTableK ko kn).isEmpty then [] else [("added", addedTableK ko kn)]) ++
      (if (changedTableK ko kn).isEmpty then [] else [("changed", changedTableK ko kn)])

/-- `diff_pd` from compare.py: set both indexes (propagating the
`KeyError` of a missing key column) and build the output mapping. -/
def diff_pd (old_df new_df : Table) (idx_col : List String) :
    Except DiffError (List (String × KTable)) :=
  match set_index old_df idx_col with
  | .error e => .error e
  | .ok ko =>
    match set_index new_df idx_col with
    | .error e => .error e
    | .ok kn => .ok (diff_pdK ko kn)

/-- The stripped projection of the row keyed `k` to the columns `cs`. -/
def normRow (t : KTable) (cs : List String) (k : Key) : List Value :=
  cs.map (fun c => strip (t.cellD k c))

/-- Old and new rows of a common key agree on every common column after
normalization, nulls identified: the comparison `drop_duplicates`
effectively performs per common key. -/
def normRowsEq (ko kn : KTable) (k : Key) : Bool :=
  rowDupEq (normRow ko (commonColsK ko kn) k) (normRow kn (commonColsK ko kn) k)

theorem isna_strip (v : Value) : isna (strip v) = isna v := by
  cases v <;> rfl

theorem dupEqV_refl (v : Value) : dupEqV v v = true := by
  simp [dupEqV]

theorem dupEqV_symm (a b : Value) : dupEqV a b = dupEqV b a := by
  by_cases h : a = b
  · subst h; rfl
  · have h2 : ¬ b = a := fun hh => h hh.symm
    simp [dupEqV, h, h2, Bool.and_comm]

theorem rowDupEq_refl (r : List Value) : rowDupEq r r = true := by
  induction r with
  | nil => rfl
  | cons a as ih => simp [rowDupEq, dupEqV_refl, ih]

theorem rowDupEq_symm (r s : List Value) : rowDupEq r s = rowDupEq s r := by
  induction r generalizing s with
  | nil => cases s <;> rfl
  | cons a as ih =>
    cases s with
    | nil => rfl
    | cons b bs => simp [rowDupEq, dupEqV_symm a b, ih bs]

theorem rowDupEq_append (a b u v : List Value) (h : a.length = b.length) :
    rowDupEq (a ++ u) (b ++ v) = (rowDupEq a b && rowDupEq u v) := by
  induction a generalizing b with
  | nil =>
    cases b with
    | nil => simp [rowDupEq]
    | cons y ys => simp at h
  | cons x xs ih =>
    cases b with
    | nil => simp at h
    | cons y ys =>
      simp only [List.length_cons] at h
      simp [rowDupEq, ih ys (by omega), Bool.and_assoc]

theorem eq_of_rowDupEq (a b : List Value) (hna : ∀ v ∈ a, isna v = false)
    (h : rowDupEq a b = true) : a = b := by
  induction a generalizing b with
  | nil =>
    cases b with
    | nil => rfl
    | cons y ys => simp [rowDupEq] at h
  | cons x xs ih =>
    cases b with
    | nil => simp [rowDupEq] at h
    | cons y ys =>
      simp only [rowDupEq, Bool.and_eq_true] at h
      have hx : isna x = false := hna x (by simp)
      have hxy : x = y := by
        have h1 := h.1
        simp [dupEqV, hx] at h1
        exact h1
      have hrest : xs = ys :=
        ih ys (fun v hv => hna v (by simp [hv])) h.2
      rw [hxy, hrest]

theorem rowDupEq_map (cs : List String) (f g : String → Value) :
    rowDupEq (cs.map f) (cs.map g) = cs.all (fun c => dupEqV (f c) (g c)) := by
  induction cs with
  | nil => rfl
  | cons c tl ih => simp [rowDupEq, ih, List.all_cons]

theorem countP_unique {α : Type} (p : α → Bool) (l : List α) (a : α)
    (hnd : l.Nodup) (ha : a ∈ l) (hu : ∀ x ∈ l, p x = true → x = a) :
    l.countP p = if p a then 1 else 0 := by
  induction l with
  | nil => simp at ha
  | cons b bs ih =>
    rcases List.mem_cons.mp ha with hab | ha2
    · subst hab
      have hz : bs.countP p = 0 := by
        apply List.countP_eq_zero.mpr
        intro x hx hpx
        have hxa := hu x (by simp [hx]) hpx
        subst hxa
        exact (List.nodup_cons.mp hnd).1 hx
      rw [List.countP_cons, hz]
      simp
    · have hb : p b = false := by
        by_contra hpb
        have hpb2 : p b = true := by revert hpb; cases p b <;> simp
        have hba := hu b (by simp) hpb2
        cases hba
        exact (List.nodup_cons.mp hnd).1 ha2
      rw [List.countP_cons, hb]
      have hrec := ih (List.nodup_cons.mp hnd).2 ha2
        (fun x hx hpx => hu x (by simp [hx]) hpx)
      simp [hrec]

theorem mem_dedupAux {α : Type} [DecidableEq α] :
    ∀ (l seen : List α) (a : α), a ∈ dedupAux seen l ↔ a ∈ l ∧ ¬ a ∈ seen := by
  intro l
  induction l with
  | nil => intro seen a; simp [dedupAux]
  | cons b bs ih =>
    intro seen a
    by_cases hb : b ∈ seen
    · rw [dedupAux, if_pos hb, ih]
      constructor
      · rintro ⟨h1, h2⟩
        exact ⟨List.mem_cons_of_mem b h1, h2⟩
      · rintro ⟨h1, h2⟩
        rcases List.mem_cons.mp h1 with h | h
        · subst h; exact absurd hb h2
        · exact ⟨h, h2⟩
    · rw [dedupAux, if_neg hb]
      constructor
      · intro h
        rcases List.mem_cons.mp h with h | h
        · subst h; exact ⟨List.mem_cons_self a bs, hb⟩
        · rw [ih] at h
          obtain ⟨h1, h2⟩ := h
          have h3 : ¬ a ∈ seen := fun hh => h2 (List.mem_cons_of_mem b hh)
          exact ⟨List.mem_cons_of_mem b h1, h3⟩
      · rintro ⟨h1, h2⟩
        by_cases hab : a = b
        · subst hab; exact List.mem_cons_self a _
        · rcases List.mem_cons.mp h1 with h | h
          · exact absurd h hab
          · apply List.mem_cons_of_mem
            rw [ih]
            refine ⟨h, ?_⟩
            intro hh
            rcases List.mem_cons.mp hh with h5 | h5
            · exact hab h5
            · exact h2 h5

theorem mem_dedup {α : Type} [DecidableEq α] (l : List α) (a : α) :
    a ∈ dedup l ↔ a ∈ l := by
  rw [dedup, mem_dedupAux]
  simp

theorem find?_tab (ks : List Key) (g : Key → List Value) (k : Key) (hk : k ∈ ks) :
    (ks.map (fun j => (j, g j))).find? (fun r => decide (r.1 = k)) = some (k, g k) := by
  induction ks with
  | nil => simp at hk
  | cons j tl ih =>
    by_cases hjk : j = k
    · subst hjk
      simp [List.find?]
    · have hk2 : k ∈ tl := by
        rcases List.mem_cons.mp hk with h | h
        · exact absurd h.symm hjk
        · exact h
      simp [List.find?, hjk, ih hk2]

theorem cellOf_zip_map (cs : List String) (f : String → Value) (c : String)
    (hc : c ∈ cs) : cellOf (cs.zip (cs.map f)) c = f c := by
  induction cs with
  | nil => simp at hc
  | cons d tl ih =>
    simp only [List.map_cons, List.zip_cons_cons, cellOf]
    by_cases hdc : d = c
    · subst hdc; simp
    · have hc2 : c ∈ tl := by
        rcases List.mem_cons.mp hc with h | h
        · exact absurd h.symm hdc
        · exact h
      rw [if_neg hdc]
      exact ih hc2

theorem cellD_tab (idx cs : List String) (ks : List Key) (g : Key → List Value)
    (k : Key) (c : String) (hk : k ∈ ks) :
    (KTable.mk idx cs (ks.map (fun j => (j, g j)))).cellD k c
      = cellOf (cs.zip (g k)) c := by
  simp [KTable.cellD, find?_tab ks g k hk]

theorem cellD_tabf (idx cs : List String) (ks : List Key) (f : Key → String → Value)
    (k : Key) (c : String) (hk : k ∈ ks) (hc : c ∈ cs) :
    (KTable.mk idx cs (ks.map (fun j => (j, cs.map (fun c2 => f j c2))))).cellD k c
      = f k c := by
  rw [cellD_tab idx cs ks (fun j => cs.map (fun c2 => f j c2)) k c hk]
  exact cellOf_zip_map cs (f k) c hc

theorem oldCommonK_eq (ko kn : KTable) :
    oldCommonK ko kn = KTable.mk ko.idx (commonColsK ko kn)
      ((commonKeysK ko kn).map
        (fun j => (j, normRow ko (commonColsK ko kn) j))) := by
  simp [oldCommonK, KTable.locKC, KTable.mapVals, normRow, List.map_map,
    Function.comp_def]

theorem newCommonK_eq (ko kn : KTable) :
    newCommonK ko kn = KTable.mk kn.idx (commonColsK ko kn)
      ((commonKeysK ko kn).map
        (fun j => (j, normRow kn (commonColsK ko kn) j))) := by
  simp [newCommonK, KTable.locKC, KTable.mapVals, normRow, List.map_map,
    Function.comp_def]

theorem combinedRows_eq (ko kn : KTable) :
    combinedRows ko kn =
      (commonKeysK ko kn).map
          (fun j => j ++ normRow ko (commonColsK ko kn) j) ++
        (commonKeysK ko kn).map
          (fun j => j ++ normRow kn (commonColsK ko kn) j) := by
  rw [combinedRows, oldCommonK_eq, newCommonK_eq]
  simp [List.map_map, Function.comp_def]

theorem oldCommonK_cellD (ko kn : KTable) (k : Key) (c : String)
    (hk : k ∈ commonKeysK ko kn) (hc : c ∈ commonColsK ko kn) :
    (oldCommonK ko kn).cellD k c = strip (ko.cellD k c) := by
  rw [oldCommonK_eq]
  exact cellD_tabf _ _ _ (fun j c2 => strip (ko.cellD j c2)) k c hk hc

theorem newCommonK_cellD (ko kn : KTable) (k : Key) (c : String)
    (hk : k ∈ commonKeysK ko kn) (hc : c ∈ commonColsK ko kn) :
    (newCommonK ko kn).cellD k c = strip (kn.cellD k c) := by
  rw [newCommonK_eq]
  exact cellD_tabf _ _ _ (fun j c2 => strip (kn.cellD j c2)) k c hk hc

theorem set_index_ok (t : Table) (idx : List String) (K : KTable)
    (h : set_index t idx = .ok K) :
    K = KTable.mk idx (t.cols.filter (fun c => !(decide (c ∈ idx))))
      (t.rows.map (fun r =>
        (idx.map (fun c => cellOf (t.cols.zip r) c),
         (t.cols.filter (fun c => !(decide (c ∈ idx)))).map
           (fun c => cellOf (t.cols.zip r) c)))) := by
  unfold set_index at h
  cases hf : idx.find? (fun c => !(decide (c ∈ t.cols))) with
  | some c => rw [hf] at h; simp at h
  | none => rw [hf] at h; simp at h; exact h.symm

theorem set_index_idx (t : Table) (idx : List String) (K : KTable)
    (h : set_index t idx = .ok K) : K.idx = idx := by
  rw [set_index_ok t idx K h]

theorem set_index_cols (t : Table) (idx : List String) (K : KTable)
    (h : set_index t idx = .ok K) :
    K.cols = t.cols.filter (fun c => !(decide (c ∈ idx))) := by
  rw [set_index_ok t idx K h]

theorem set_index_keyLen (t : Table) (idx : List String) (K : KTable)
    (h : set_index t idx = .ok K) : ∀ j ∈ K.keyList, j.length = K.idx.length := by
  rw [set_index_ok t idx K h]
  intro j hj
  simp only [KTable.keyList, List.map_map, List.mem_map, Function.comp_def] at hj
  obtain ⟨r, hr, hjr⟩ := hj
  rw [← hjr]
  simp

theorem locKC_keyList (t : KTable) (ks : List Key) (cs : List String) :
    (t.locKC ks cs).keyList = ks := by
  simp [KTable.locKC, KTable.keyList, List.map_map, Function.comp_def]

theorem changedTableK_keyList (ko kn : KTable) :
    (changedTableK ko kn).keyList = changedKeysK ko kn := by
  simp [changedTableK, KTable.keyList, List.map_map, Function.comp_def]

theorem mem_removedKeysK (ko kn : KTable) (k : Key) :
    k ∈ removedKeysK ko kn ↔ k ∈ ko.keyList ∧ ¬ k ∈ kn.keyList := by
  simp [removedKeysK, List.mem_filter]

theorem mem_addedKeysK (ko kn : KTable) (k : Key) :
    k ∈ addedKeysK ko kn ↔ k ∈ kn.keyList ∧ ¬ k ∈ ko.keyList := by
  simp [addedKeysK, List.mem_filter]

theorem mem_commonKeysK (ko kn : KTable) (k : Key) :
    k ∈ commonKeysK ko kn ↔ k ∈ ko.keyList ∧ k ∈ kn.keyList := by
  simp [commonKeysK, List.mem_filter]

theorem mem_commonColsK (ko kn : KTable) (c : String) :
    c ∈ commonColsK ko kn ↔ c ∈ ko.cols ∧ c ∈ kn.cols := by
  simp [commonColsK, List.mem_filter]

theorem countP_oldRow (ko kn : KTable) (k : Key)
    (hk : k ∈ commonKeysK ko kn)
    (hnd : (commonKeysK ko kn).Nodup)
    (hna : ∀ v ∈ k, isna v = false)
    (hlen : ∀ j ∈ commonKeysK ko kn, j.length = k.length) :
    (combinedRows ko kn).countP
        (fun s => rowDupEq (k ++ normRow ko (commonColsK ko kn) k) s) =
      1 + (if normRowsEq ko kn k then 1 else 0) := by
  rw [combinedRows_eq, List.countP_append, List.countP_map, List.countP_map]
  have hu1 : ∀ j ∈ commonKeysK ko kn,
      ((fun s => rowDupEq (k ++ normRow ko (commonColsK ko kn) k) s) ∘
        (fun j => j ++ normRow ko (commonColsK ko kn) j)) j = true → j = k := by
    intro j hj hpj
    simp only [Function.comp_apply] at hpj
    rw [rowDupEq_append _ _ _ _ (hlen j hj).symm, Bool.and_eq_true] at hpj
    exact (eq_of_rowDupEq k j hna hpj.1).symm
  have hu2 : ∀ j ∈ commonKeysK ko kn,
      ((fun s => rowDupEq (k ++ normRow ko (commonColsK ko kn) k) s) ∘
        (fun j => j ++ normRow kn (commonColsK ko kn) j)) j = true → j = k := by
    intro j hj hpj
    simp only [Function.comp_apply] at hpj
    rw [rowDupEq_append _ _ _ _ (hlen j hj).symm, Bool.and_eq_true] at hpj
    exact (eq_of_rowDupEq k j hna hpj.1).symm
  have hOld := countP_unique
    ((fun s => rowDupEq (k ++ normRow ko (commonColsK ko kn) k) s) ∘
      (fun j => j ++ normRow ko (commonColsK ko kn) j))
    (commonKeysK ko kn) k hnd hk hu1
  have hNew := countP_unique
    ((fun s => rowDupEq (k ++ normRow ko (commonColsK ko kn) k) s) ∘
      (fun j => j ++ normRow kn (commonColsK ko kn) j))
    (commonKeysK ko kn) k hnd hk hu2
  rw [hOld, hNew]
  have e1 : ((fun s => rowDupEq (k ++ normRow ko (commonColsK ko kn) k) s) ∘
      (fun j => j ++ normRow ko (commonColsK ko kn) j)) k = true := by
    simp only [Function.comp_apply]
    rw [rowDupEq_append _ _ _ _ rfl, rowDupEq_refl, rowDupEq_refl]
    rfl
  have e2 : ((fun s => rowDupEq (k ++ normRow ko (commonColsK ko kn) k) s) ∘
      (fun j => j ++ normRow kn (commonColsK ko kn) j)) k = normRowsEq ko kn k := by
    simp only [Function.comp_apply]
    rw [rowDupEq_append _ _ _ _ rfl, rowDupEq_refl]
    simp [normRowsEq]
  rw [e1, e2]
  simp

theorem countP_newRow (ko kn : KTable) (k : Key)
    (hk : k ∈ commonKeysK ko kn)
    (hnd : (commonKeysK ko kn).Nodup)
    (hna : ∀ v ∈ k, isna v = false)
    (hlen : ∀ j ∈ commonKeysK ko kn, j.length = k.length) :
    (combinedRows ko kn).countP
        (fun s => rowDupEq (k ++ normRow kn (commonColsK ko kn) k) s) =
      (if normRowsEq ko kn k then 1 else 0) + 1 := by
  rw [combinedRows_eq, List.countP_append, List.countP_map, List.countP_map]
  have hu1 : ∀ j ∈ commonKeysK ko kn,
      ((fun s => rowDupEq (k ++ normRow kn (commonColsK ko kn) k) s) ∘
        (fun j => j ++ normRow ko (commonColsK ko kn) j)) j = true → j = k := by
    intro j hj hpj
    simp only [Function.comp_apply] at hpj
    rw [rowDupEq_append _ _ _ _ (hlen j hj).symm, Bool.and_eq_true] at hpj
    exact (eq_of_rowDupEq k j hna hpj.1).symm
  have hu2 : ∀ j ∈ commonKeysK ko kn,
      ((fun s => rowDupEq (k ++ normRow kn (commonColsK ko kn) k) s) ∘
        (fun j => j ++ normRow kn (commonColsK ko kn) j)) j = true → j = k := by
    intro j hj hpj
    simp only [Function.comp_apply] at hpj
    rw [rowDupEq_append _ _ _ _ (hlen j hj).symm, Bool.and_eq_true] at hpj
    exact (eq_of_rowDupEq k j hna hpj.1).symm
  have hOld := countP_unique
    ((fun s => rowDupEq (k ++ normRow kn (commonColsK ko kn) k) s) ∘
      (fun j => j ++ normRow ko (commonColsK ko kn) j))
    (commonKeysK ko kn) k hnd hk hu1
  have hNew := countP_unique
    ((fun s => rowDupEq (k ++ normRow kn (commonColsK ko kn) k) s) ∘
      (fun j => j ++ normRow kn (commonColsK ko kn) j))
    (commonKeysK ko kn) k hnd hk hu2
  rw [hOld, hNew]
  have e1 : ((fun s => rowDupEq (k ++ normRow kn (commonColsK ko kn) k) s) ∘
      (fun j => j ++ normRow ko (commonColsK ko kn) j)) k = normRowsEq ko kn k := by
    simp only [Function.comp_apply]
    rw [rowDupEq_append _ _ _ _ rfl, rowDupEq_refl]
    simp only [Bool.true_and]
    rw [rowDupEq_symm]
    simp [normRowsEq]
  have e2 : ((fun s => rowDupEq (k ++ normRow kn (commonColsK ko kn) k) s) ∘
      (fun j => j ++ normRow kn (commonColsK ko kn) j)) k = true := by
    simp only [Function.comp_apply]
    rw [rowDupEq_append _ _ _ _ rfl, rowDupEq_refl, rowDupEq_refl]
    rfl
  rw [e1, e2]
  simp

theorem mem_changedKeys_elim (ko kn : KTable) (k : Key)
    (hlen : ∀ j ∈ ko.keyList, j.length = ko.idx.length)
    (h : k ∈ changedKeysK ko kn) :
    k ∈ commonKeysK ko kn ∧
      (((combinedRows ko kn).countP
          (fun s => rowDupEq (k ++ normRow ko (commonColsK ko kn) k) s) = 1) ∨
        ((combinedRows ko kn).countP
          (fun s => rowDupEq (k ++ normRow kn (commonColsK ko kn) k) s) = 1)) := by
  rw [changedKeysK, mem_dedup] at h
  simp only [List.mem_map] at h
  obtain ⟨r, hr, hrk⟩ := h
  rw [List.mem_filter] at hr
  obtain ⟨hrc, hcnt⟩ := hr
  have hcnt2 : (combinedRows ko kn).countP (fun s => rowDupEq r s) = 1 := by
    simpa using hcnt
  have hmem := hrc
  rw [combinedRows_eq, List.mem_append] at hmem
  rcases hmem with hro | hrn
  · rw [List.mem_map] at hro
    obtain ⟨j, hj, hjr⟩ := hro
    have hjK : j ∈ ko.keyList := (List.mem_filter.mp hj).1
    have hjk : j = k := by
      rw [← hjr, List.take_left' (hlen j hjK)] at hrk
      exact hrk
    subst hjk
    rw [← hjr] at hcnt2
    exact ⟨hj, Or.inl hcnt2⟩
  · rw [List.mem_map] at hrn
    obtain ⟨j, hj, hjr⟩ := hrn
    have hjK : j ∈ ko.keyList := (List.mem_filter.mp hj).1
    have hjk : j = k := by
      rw [← hjr, List.take_left' (hlen j hjK)] at hrk
      exact hrk
    subst hjk
    rw [← hjr] at hcnt2
    exact ⟨hj, Or.inr hcnt2⟩

theorem changedKeysK_subset (ko kn : KTable) (k : Key)
    (hlen : ∀ j ∈ ko.keyList, j.length = ko.idx.length)
    (h : k ∈ changedKeysK ko kn) : k ∈ commonKeysK ko kn :=
  (mem_changedKeys_elim ko kn k hlen h).1

theorem mem_changedKeysK (ko kn : KTable) (k : Key)
    (hnd : ko.keyList.Nodup)
    (hna : ∀ j ∈ ko.keyList, ∀ v ∈ j, isna v = false)
    (hlen : ∀ j ∈ ko.keyList, j.length = ko.idx.length) :
    k ∈ changedKeysK ko kn ↔
      k ∈ commonKeysK ko kn ∧ normRowsEq ko kn k = false := by
  have hndC : (commonKeysK ko kn).Nodup := hnd.filter _
  constructor
  · intro h
    obtain ⟨hk, hcase⟩ := mem_changedKeys_elim ko kn k hlen h
    have hkK : k ∈ ko.keyList := (List.mem_filter.mp hk).1
    have hlenC : ∀ j ∈ commonKeysK ko kn, j.length = k.length := by
      intro j hj
      rw [hlen j (List.mem_filter.mp hj).1, hlen k hkK]
    refine ⟨hk, ?_⟩
    cases hb : normRowsEq ko kn k with
    | false => rfl
    | true =>
      exfalso
      rcases hcase with hc1 | hc1
      · rw [countP_oldRow ko kn k hk hndC (hna k hkK) hlenC, hb] at hc1
        simp at hc1
      · rw [countP_newRow ko kn k hk hndC (hna k hkK) hlenC, hb] at hc1
        simp at hc1
  · rintro ⟨hk, hne⟩
    have hkK : k ∈ ko.keyList := (List.mem_filter.mp hk).1
    have hlenC : ∀ j ∈ commonKeysK ko kn, j.length = k.length := by
      intro j hj
      rw [hlen j (List.mem_filter.mp hj).1, hlen k hkK]
    rw [changedKeysK, mem_dedup]
    refine List.mem_map.mpr ⟨k ++ normRow ko (commonColsK ko kn) k, ?_, ?_⟩
    · rw [List.mem_filter]
      refine ⟨?_, ?_⟩
      · rw [combinedRows_eq]
        exact List.mem_append_left _ (List.mem_map.mpr ⟨k, hk, rfl⟩)
      · have hcount := countP_oldRow ko kn k hk hndC (hna k hkK) hlenC
        rw [hne] at hcount
        simp only [if_false, Bool.false_eq_true] at hcount
        simp [hcount]
    · exact List.take_left' (hlen k hkK)

theorem not_mem_changedKeysK_of_eq (ko kn : KTable) (k : Key)
    (hnd : ko.keyList.Nodup)
    (hna : ∀ j ∈ ko.keyList, ∀ v ∈ j, isna v = false)
    (hlen : ∀ j ∈ ko.keyList, j.length = ko.idx.length)
    (heq : normRowsEq ko kn k = true) :
    ¬ k ∈ changedKeysK ko kn := by
  intro h
  have h2 := (mem_changedKeysK ko kn k hnd hna hlen).mp h
  rw [heq] at h2
  exact absurd h2.2 (by simp)

theorem all_congr_mem (p q : String → Bool) (l1 l2 : List String)
    (hmem : ∀ c, c ∈ l1 ↔ c ∈ l2) (hpq : ∀ c, p c = q c) :
    l1.all p = l2.all q := by
  cases h2 : l2.all q with
  | true =>
    apply List.all_eq_true.mpr
    intro c hc
    rw [hpq c]
    exact List.all_eq_true.mp h2 c ((hmem c).mp hc)
  | false =>
    by_contra hne
    have h1 : l1.all p = true := by revert hne; cases l1.all p <;> simp
    have h3 : l2.all q = true := by
      apply List.all_eq_true.mpr
      intro c hc
      rw [← hpq c]
      exact List.all_eq_true.mp h1 c ((hmem c).mpr hc)
    rw [h3] at h2
    cases h2

theorem normRowsEq_swap (ko kn : KTable) (k : Key) :
    normRowsEq kn ko k = normRowsEq ko kn k := by
  unfold normRowsEq normRow
  rw [rowDupEq_map, rowDupEq_map]
  apply all_congr_mem
  · intro c
    rw [mem_commonColsK, mem_commonColsK]
    tauto
  · intro c
    exact dupEqV_symm _ _

theorem mem_diff_pdK_changed (ko kn : KTable) (t : KTable)
    (h : ("changed", t) ∈ diff_pdK ko kn) : t = changedTableK ko kn := by
  unfold diff_pdK at h
  rw [List.mem_append, List.mem_append] at h
  rcases h with (h | h) | h
  · split at h
    · cases h
    · rw [List.mem_singleton] at h
      exact absurd (congrArg Prod.fst h) (by simp)
  · split at h
    · cases h
    · rw [List.mem_singleton] at h
      exact absurd (congrArg Prod.fst h) (by simp)
  · split at h
    · cases h
    · rw [List.mem_singleton] at h
      exact congrArg Prod.snd h

theorem diff_pdK_names (ko kn : KTable) (p : String × KTable)
    (hp : p ∈ diff_pdK ko kn) :
    p.1 = "removed" ∨ p.1 = "added" ∨ p.1 = "changed" := by
  unfold diff_pdK at hp
  rw [List.mem_append, List.mem_append] at hp
  rcases hp with (h | h) | h <;>
    [skip; skip; skip] <;>
    · split at h
      · cases h
      · rw [List.mem_singleton] at h
        rw [h]
        simp

theorem diff_pdK_mem_fst (ko kn : KTable) (n : String) :
    n ∈ (diff_pdK ko kn).map Prod.fst ↔
      (n = "removed" ∧ (removedTableK ko kn).isEmpty = false) ∨
        (n = "added" ∧ (addedTableK ko kn).isEmpty = false) ∨
          (n = "changed" ∧ (changedTableK ko kn).isEmpty = false) := by
  cases h1 : (removedTableK ko kn).isEmpty <;>
    cases h2 : (addedTableK ko kn).isEmpty <;>
      cases h3 : (changedTableK ko kn).isEmpty <;>
        simp [diff_pdK, h1, h2, h3]

theorem diff_pdK_nil (ko kn : KTable)
    (h1 : (removedTableK ko kn).isEmpty = true)
    (h2 : (addedTableK ko kn).isEmpty = true)
    (h3 : (changedTableK ko kn).isEmpty = true) : diff_pdK ko kn = [] := by
  simp [diff_pdK, h1, h2, h3]

theorem diff_pdK_self (K : KTable) : diff_pdK K K = [] := by
  have hrem : removedKeysK K K = [] := by
    apply List.filter_eq_nil_iff.mpr
    intro k hk
    simp [hk]
  have hadd : addedKeysK K K = [] := by
    apply List.filter_eq_nil_iff.mpr
    intro k hk
    simp [hk]
  have hchg : changedKeysK K K = [] := by
    unfold changedKeysK
    have hfil : (combinedRows K K).filter
        (fun r => (combinedRows K K).countP (fun s => rowDupEq r s) == 1) = [] := by
      apply List.filter_eq_nil_iff.mpr
      intro r hr
      have hee : newCommonK K K = oldCommonK K K := rfl
      have hr2 : r ∈ (oldCommonK K K).rows.map (fun r => r.1 ++ r.2) := by
        rw [combinedRows, hee] at hr
        rcases List.mem_append.mp hr with h | h
        · exact h
        · exact h
      have hcount : 2 ≤ (combinedRows K K).countP (fun s => rowDupEq r s) := by
        rw [combinedRows, hee, List.countP_append]
        have hpos : 0 < ((oldCommonK K K).rows.map
            (fun r => r.1 ++ r.2)).countP (fun s => rowDupEq r s) :=
          List.countP_pos_iff.mpr ⟨r, hr2, rowDupEq_refl r⟩
        omega
      simp only [beq_iff_eq]
      omega
    rw [hfil]
    simp [dedup, dedupAux]
  have h1 : (removedTableK K K).isEmpty = true := by
    unfold removedTableK KTable.locKC KTable.isEmpty
    rw [hrem]
    rfl
  have h2 : (addedTableK K K).isEmpty = true := by
    unfold addedTableK KTable.locKC KTable.isEmpty
    rw [hadd]
    rfl
  have h3 : (changedTableK K K).isEmpty = true := by
    unfold changedTableK KTable.isEmpty
    rw [hchg]
    rfl
  exact diff_pdK_nil K K h1 h2 h3

/-- Old table of the running example: ids 1 and 2 with name and age. -/
def tScenario : Table :=
  { cols := ["id", "name", "age"],
    rows := [[.int 1, .str "Alice", .int 30], [.int 2, .str "Bob", .int 25]] }

/-- New table of the running example: id 1 aged, id 2 gone, id 3 added. -/
def tScenarioNew : Table :=
  { cols := ["id", "name", "age"],
    rows := [[.int 1, .str "Alice", .int 31], [.int 3, .str "Carl", .int 40]] }

/-- `tScenario` after `set_index` on id. -/
def kScenario : KTable :=
  { idx := ["id"], cols := ["name", "age"],
    rows := [([.int 1], [.str "Alice", .int 30]),
             ([.int 2], [.str "Bob", .int 25])] }

/-- `tScenarioNew` after `set_index` on id. -/
def kScenarioNew : KTable :=
  { idx := ["id"], cols := ["name", "age"],
    rows := [([.int 1], [.str "Alice", .int 31]),
             ([.int 3], [.str "Carl", .int 40])] }

/-- Claim C3: diffing any table with a valid unique key against itself
yields the empty mapping: no removed, added or changed entry. -/
theorem claim_C3 (T : Table) (idx : List String) (K : KTable)
    (hok : set_index T idx = .ok K) (_hnd : K.keyList.Nodup) :
    diff_pd T T idx = .ok [] := by
  simp [diff_pd, hok, diff_pdK_self]

/-- Witness for C3 on the running example table. -/
theorem claim_C3_witness : diff_pd tScenario tScenario ["id"] = .ok [] :=
  claim_C3 tScenario ["id"] kScenario rfl (by decide)

/-- Claim C5: a key column absent from either input makes `diff_pd` fail
with the pandas `KeyError` raised by `set_index`, so no result mapping
at all is produced. -/
theorem claim_C5 (old_df new_df : Table) (idx : List String) (c : String)
    (hc : c ∈ idx) (hmiss : ¬ c ∈ old_df.cols ∨ ¬ c ∈ new_df.cols) :
    ∃ m, diff_pd old_df new_df idx = .error (.keyError m) := by
  rcases hmiss with hm | hm
  · have hfind : (idx.find? (fun c2 => !(decide (c2 ∈ old_df.cols)))).isSome := by
      rw [List.find?_isSome]
      exact ⟨c, hc, by simp [hm]⟩
    cases hf : idx.find? (fun c2 => !(decide (c2 ∈ old_df.cols))) with
    | none => rw [hf] at hfind; cases hfind
    | some m =>
      have holdx : set_index old_df idx = .error (.keyError m) := by
        unfold set_index
        rw [hf]
      exact ⟨m, by simp [diff_pd, holdx]⟩
  · cases hold : set_index old_df idx with
    | error e =>
      cases e with
      | keyError m => exact ⟨m, by simp [diff_pd, hold]⟩
    | ok ko =>
      have hfind : (idx.find? (fun c2 => !(decide (c2 ∈ new_df.cols)))).isSome := by
        rw [List.find?_isSome]
        exact ⟨c, hc, by simp [hm]⟩
      cases hf : idx.find? (fun c2 => !(decide (c2 ∈ new_df.cols))) with
      | none => rw [hf] at hfind; cases hfind
      | some m =>
        have hnewx : set_index new_df idx = .error (.keyError m) := by
          unfold set_index
          rw [hf]
        exact ⟨m, by simp [diff_pd, hold, hnewx]⟩

/-- Witness for C5: requesting the absent key column sku fails. -/
theorem claim_C5_witness :
    ∃ m, diff_pd tScenario tScenarioNew ["sku"] = .error (.keyError m) :=
  claim_C5 tScenario tScenarioNew ["sku"] "sku" (by decide) (Or.inl (by decide))

/-- Claim C6: swapping the two inputs swaps the removed and added key
sets and leaves the changed key set the same. -/
theorem claim_C6 (A B : Table) (idx : List String) (ka kb : KTable) (k : Key)
    (hA : set_index A idx = .ok ka) (hB : set_index B idx = .ok kb)
    (hndA : ka.keyList.Nodup) (hnaA : ∀ j ∈ ka.keyList, ∀ v ∈ j, isna v = false)
    (hndB : kb.keyList.Nodup) (hnaB : ∀ j ∈ kb.keyList, ∀ v ∈ j, isna v = false) :
    (removedTableK ka kb).keyList = (addedTableK kb ka).keyList ∧
      (addedTableK ka kb).keyList = (removedTableK kb ka).keyList ∧
        (k ∈ (changedTableK ka kb).keyList ↔ k ∈ (changedTableK kb ka).keyList) := by
  have hlenA : ∀ j ∈ ka.keyList, j.length = ka.idx.length :=
    set_index_keyLen A idx ka hA
  have hlenB : ∀ j ∈ kb.keyList, j.length = kb.idx.length :=
    set_index_keyLen B idx kb hB
  refine ⟨?_, ?_, ?_⟩
  · rw [removedTableK, addedTableK, locKC_keyList, locKC_keyList]
    rfl
  · rw [addedTableK, removedTableK, locKC_keyList, locKC_keyList]
    rfl
  · rw [changedTableK_keyList, changedTableK_keyList,
      mem_changedKeysK ka kb k hndA hnaA hlenA,
      mem_changedKeysK kb ka k hndB hnaB hlenB,
      mem_commonKeysK, mem_commonKeysK, normRowsEq_swap]
    tauto

/-- Witness for C6 on the running example, at the common key id 1. -/
theorem claim_C6_witness :
    (removedTableK kScenario kScenarioNew).keyList =
        (addedTableK kScenarioNew kScenario).keyList ∧
      (addedTableK kScenario kScenarioNew).keyList =
          (removedTableK kScenarioNew kScenario).keyList ∧
        ([.int 1] ∈ (changedTableK kScenario kScenarioNew).keyList ↔
          [.int 1] ∈ (changedTableK kScenarioNew kScenario).keyList) :=
  claim_C6 tScenario tScenarioNew ["id"] kScenario kScenarioNew [.int 1]
    rfl rfl (by decide) (by decide) (by decide) (by decide)

/-- Claim C2: a cell missing on both sides — even under two different
missing encodings — compares equal under the null-identifying rule, and
with every other common column comparing equal the row is not classified
as changed, so it appears in no changed table of the output. -/
theorem claim_C2 (old_df new_df : Table) (idx : List String) (ko kn : KTable)
    (k : Key) (c0 : String)
    (hO : set_index old_df idx = .ok ko) (_hN : set_index new_df idx = .ok kn)
    (hnd : ko.keyList.Nodup)
    (hna : ∀ j ∈ ko.keyList, ∀ v ∈ j, isna v = false)
    (_hk : k ∈ commonKeysK ko kn) (_hc0 : c0 ∈ commonColsK ko kn)
    (hmo : isna (ko.cellD k c0) = true) (hmn : isna (kn.cellD k c0) = true)
    (hrest : ∀ c ∈ commonColsK ko kn, c ≠ c0 →
      dupEqV (strip (ko.cellD k c)) (strip (kn.cellD k c)) = true) :
    dupEqV (strip (ko.cellD k c0)) (strip (kn.cellD k c0)) = true ∧
      ¬ k ∈ (changedTableK ko kn).keyList ∧
        ∀ t, ("changed", t) ∈ diff_pdK ko kn → ¬ k ∈ t.keyList := by
  have hcell : dupEqV (strip (ko.cellD k c0)) (strip (kn.cellD k c0)) = true := by
    unfold dupEqV
    rw [isna_strip, isna_strip, hmo, hmn]
    rfl
  have hall : normRowsEq ko kn k = true := by
    unfold normRowsEq normRow
    rw [rowDupEq_map]
    apply List.all_eq_true.mpr
    intro c hc
    by_cases hcc : c = c0
    · subst hcc; exact hcell
    · exact hrest c hc hcc
  have hlen := set_index_keyLen old_df idx ko hO
  have hnot : ¬ k ∈ changedKeysK ko kn :=
    not_mem_changedKeysK_of_eq ko kn k hnd hna hlen hall
  refine ⟨hcell, ?_, ?_⟩
  · rw [changedTableK_keyList]
    exact hnot
  · intro t ht
    rw [mem_diff_pdK_changed ko kn t ht, changedTableK_keyList]
    exact hnot

/-- Old table with a NaN cell at the common key, column a. -/
def tMissOld : Table :=
  { cols := ["k", "a", "b"], rows := [[.int 1, .nan, .str "x"]] }

/-- New table with a None cell at the same place. -/
def tMissNew : Table :=
  { cols := ["k", "a", "b"], rows := [[.int 1, .null, .str "x"]] }

/-- `tMissOld` after `set_index` on k. -/
def kMissOld : KTable :=
  { idx := ["k"], cols := ["a", "b"], rows := [([.int 1], [.nan, .str "x"])] }

/-- `tMissNew` after `set_index` on k. -/
def kMissNew : KTable :=
  { idx := ["k"], cols := ["a", "b"], rows := [([.int 1], [.null, .str "x"])] }

/-- Witness for C2: NaN on the old side and None on the new side of the
same cell compare equal and leave the row unchanged. -/
theorem claim_C2_witness :
    dupEqV (strip (kMissOld.cellD [.int 1] "a"))
        (strip (kMissNew.cellD [.int 1] "a")) = true ∧
      ¬ [.int 1] ∈ (changedTableK kMissOld kMissNew).keyList ∧
        ∀ t, ("changed", t) ∈ diff_pdK kMissOld kMissNew →
          ¬ [.int 1] ∈ t.keyList :=
  claim_C2 tMissOld tMissNew ["k"] kMissOld kMissNew [.int 1] "a"
    rfl rfl (by decide) (by decide) (by decide) (by decide) (by decide)
    (by decide) (by decide)

/-- Claim C7: a textual cell differing only in surrounding whitespace,
with every other common column comparing equal, does not put its row
into the changed result. -/
theorem claim_C7 (old_df new_df : Table) (idx : List String) (ko kn : KTable)
    (k : Key) (c0 : String) (s t : String)
    (hO : set_index old_df idx = .ok ko) (_hN : set_index new_df idx = .ok kn)
    (hnd : ko.keyList.Nodup)
    (hna : ∀ j ∈ ko.keyList, ∀ v ∈ j, isna v = false)
    (_hk : k ∈ commonKeysK ko kn) (_hc0 : c0 ∈ commonColsK ko kn)
    (hvo : ko.cellD k c0 = .str s) (hvn : kn.cellD k c0 = .str t)
    (hws : pyStrip s = pyStrip t)
    (hrest : ∀ c ∈ commonColsK ko kn, c ≠ c0 →
      dupEqV (strip (ko.cellD k c)) (strip (kn.cellD k c)) = true) :
    ¬ k ∈ (changedTableK ko kn).keyList ∧
      ∀ u, ("changed", u) ∈ diff_pdK ko kn → ¬ k ∈ u.keyList := by
  have hcell : dupEqV (strip (ko.cellD k c0)) (strip (kn.cellD k c0)) = true := by
    rw [hvo, hvn]
    show dupEqV (.str (pyStrip s)) (.str (pyStrip t)) = true
    rw [hws]
    simp [dupEqV]
  have hall : normRowsEq ko kn k = true := by
    unfold normRowsEq normRow
    rw [rowDupEq_map]
    apply List.all_eq_true.mpr
    intro c hc
    by_cases hcc : c = c0
    · subst hcc; exact hcell
    · exact hrest c hc hcc
  have hlen := set_index_keyLen old_df idx ko hO
  have hnot : ¬ k ∈ changedKeysK ko kn :=
    not_mem_changedKeysK_of_eq ko kn k hnd hna hlen hall
  refine ⟨?_, ?_⟩
  · rw [changedTableK_keyList]
    exact hnot
  · intro u hu
    rw [mem_diff_pdK_changed ko kn u hu, changedTableK_keyList]
    exact hnot

/-- Old table whose only textual difference to `tWsNew` is whitespace. -/
def tWsOld : Table :=
  { cols := ["k", "a", "b"], rows := [[.int 1, .str "x ", .str "y"]] }

/-- New table with the same text up to surrounding whitespace. -/
def tWsNew : Table :=
  { cols := ["k", "a", "b"], rows := [[.int 1, .str " x", .str "y"]] }

/-- `tWsOld` after `set_index` on k. -/
def kWsOld : KTable :=
  { idx := ["k"], cols := ["a", "b"], rows := [([.int 1], [.str "x ", .str "y"])] }

/-- `tWsNew` after `set_index` on k. -/
def kWsNew : KTable :=
  { idx := ["k"], cols := ["a", "b"], rows := [([.int 1], [.str " x", .str "y"])] }

/-- Witness for C7: trailing versus leading whitespace around the same
text does not mark the row as changed. -/
theorem claim_C7_witness :
    ¬ [.int 1] ∈ (changedTableK kWsOld kWsNew).keyList ∧
      ∀ u, ("changed", u) ∈ diff_pdK kWsOld kWsNew → ¬ [.int 1] ∈ u.keyList :=
  claim_C7 tWsOld tWsNew ["k"] kWsOld kWsNew [.int 1] "a" "x " " x"
    rfl rfl (by decide) (by decide) (by decide) (by decide) (by decide)
    (by decide) (by decide) (by decide)

/-- Claim C1 (amended): a cell of a changed row whose values are not
equal under the equality rule renders as the arrow string of the two
normalized (whitespace-stripped) display forms — the source strips
before rendering, so the raw forms of the original claim do not appear. -/
theorem claim_C1_amended (old_df : Table) (idx : List String)
    (ko kn : KTable) (k : Key) (c : String)
    (hO : set_index old_df idx = .ok ko)
    (hk : k ∈ (changedTableK ko kn).keyList) (hc : c ∈ commonColsK ko kn)
    (hne : (pyEq (strip (ko.cellD k c)) (strip (kn.cellD k c)) ||
        (isna (strip (ko.cellD k c)) && isna (strip (kn.cellD k c)))) = false) :
    (changedTableK ko kn).cellD k c =
      .str (pyStr (strip (ko.cellD k c)) ++ " ---> " ++
        pyStr (strip (kn.cellD k c))) := by
  rw [changedTableK_keyList] at hk
  have hlen := set_index_keyLen old_df idx ko hO
  have hkC : k ∈ commonKeysK ko kn := changedKeysK_subset ko kn k hlen hk
  have hcd : (changedTableK ko kn).cellD k c =
      report_diff ((oldCommonK ko kn).cellD k c)
        ((newCommonK ko kn).cellD k c) := by
    unfold changedTableK
    exact cellD_tabf _ _ _
      (fun j c2 => report_diff ((oldCommonK ko kn).cellD j c2)
        ((newCommonK ko kn).cellD j c2)) k c hk hc
  rw [hcd, oldCommonK_cellD ko kn k c hkC hc, newCommonK_cellD ko kn k c hkC hc]
  unfold report_diff
  rw [hne]
  rfl

/-- Old table whose cell in column a carries surrounding whitespace. -/
def tArrOld : Table :=
  { cols := ["k", "a"], rows := [[.int 1, .str " 1 "]] }

/-- New table with a genuinely different value in column a. -/
def tArrNew : Table :=
  { cols := ["k", "a"], rows := [[.int 1, .str "2"]] }

/-- `tArrOld` after `set_index` on k. -/
def kArrOld : KTable :=
  { idx := ["k"], cols := ["a"], rows := [([.int 1], [.str " 1 "])] }

/-- `tArrNew` after `set_index` on k. -/
def kArrNew : KTable :=
  { idx := ["k"], cols := ["a"], rows := [([.int 1], [.str "2"])] }

/-- Counterexample to C1 as stated: for the raw old value " 1 " versus
the new value "2" the changed cell renders as "1 ---> 2", built from the
stripped old value, and differs from the string built from the raw
display forms of the original values. -/
theorem claim_C1_counterexample :
    set_index tArrOld ["k"] = Except.ok kArrOld ∧
      set_index tArrNew ["k"] = Except.ok kArrNew ∧
        [.int 1] ∈ (changedTableK kArrOld kArrNew).keyList ∧
          (changedTableK kArrOld kArrNew).cellD [.int 1] "a" =
              .str "1 ---> 2" ∧
            (changedTableK kArrOld kArrNew).cellD [.int 1] "a" ≠
              .str (pyStr (kArrOld.cellD [.int 1] "a") ++ " ---> " ++
                pyStr (kArrNew.cellD [.int 1] "a")) :=
  ⟨rfl, rfl, by decide, by decide, by decide⟩

/-- Witness for C1 (amended) at the same concrete tables. -/
theorem claim_C1_witness :
    (changedTableK kArrOld kArrNew).cellD [.int 1] "a" =
      .str (pyStr (strip (kArrOld.cellD [.int 1] "a")) ++ " ---> " ++
        pyStr (strip (kArrNew.cellD [.int 1] "a"))) :=
  claim_C1_amended tArrOld ["k"] kArrOld kArrNew [.int 1] "a"
    rfl (by decide) (by decide) (by decide)

/-- Claim C4 (amended): the removed, added and changed key sets are
pairwise disjoint and their union is (old keys ∪ new keys) minus the
common keys whose rows on shared columns are equal after normalization
with all missing encodings identified; the plain reading — rows
literally identical after normalization — fails when the two sides hold
different missing encodings (see the counterexample). -/
theorem claim_C4_amended (old_df : Table) (idx : List String)
    (ko kn : KTable) (k : Key)
    (hO : set_index old_df idx = .ok ko)
    (hnd : ko.keyList.Nodup)
    (hna : ∀ j ∈ ko.keyList, ∀ v ∈ j, isna v = false) :
    (¬ (k ∈ (removedTableK ko kn).keyList ∧ k ∈ (addedTableK ko kn).keyList) ∧
      ¬ (k ∈ (removedTableK ko kn).keyList ∧ k ∈ (changedTableK ko kn).keyList) ∧
        ¬ (k ∈ (addedTableK ko kn).keyList ∧ k ∈ (changedTableK ko kn).keyList)) ∧
      ((k ∈ (removedTableK ko kn).keyList ∨ k ∈ (addedTableK ko kn).keyList ∨
          k ∈ (changedTableK ko kn).keyList) ↔
        ((k ∈ ko.keyList ∨ k ∈ kn.keyList) ∧
          ¬ (k ∈ commonKeysK ko kn ∧ normRowsEq ko kn k = true))) := by
  have hlen := set_index_keyLen old_df idx ko hO
  have hchg := mem_changedKeysK ko kn k hnd hna hlen
  rw [removedTableK, addedTableK, locKC_keyList, locKC_keyList,
    changedTableK_keyList, hchg, mem_removedKeysK, mem_addedKeysK,
    mem_commonKeysK]
  constructor
  · refine ⟨?_, ?_, ?_⟩
    · rintro ⟨⟨_, hnB⟩, ⟨hB, _⟩⟩
      exact hnB hB
    · rintro ⟨⟨_, hnB⟩, ⟨⟨_, hB⟩, _⟩⟩
      exact hnB hB
    · rintro ⟨⟨_, hnA⟩, ⟨⟨hA, _⟩, _⟩⟩
      exact hnA hA
  · constructor
    · rintro (⟨hA, hnB⟩ | ⟨hB, hnA⟩ | ⟨⟨hA, hB⟩, hE⟩)
      · exact ⟨Or.inl hA, fun hcon => hnB hcon.1.2⟩
      · exact ⟨Or.inr hB, fun hcon => hnA hcon.1.1⟩
      · refine ⟨Or.inl hA, ?_⟩
        rintro ⟨_, hEt⟩
        rw [hE] at hEt
        cases hEt
    · rintro ⟨hAB, hncon⟩
      by_cases hA : k ∈ ko.keyList
      · by_cases hB : k ∈ kn.keyList
        · refine Or.inr (Or.inr ⟨⟨hA, hB⟩, ?_⟩)
          cases hEc : normRowsEq ko kn k
          · rfl
          · exact absurd ⟨⟨hA, hB⟩, hEc⟩ hncon
        · exact Or.inl ⟨hA, hB⟩
      · rcases hAB with h | h
        · exact absurd h hA
        · exact Or.inr (Or.inl ⟨h, hA⟩)

/-- Counterexample to C4 as stated: with NaN against None in the same
cell the normalized rows of key 1 are not identical, so the claimed
union equation requires key 1 in some result set, yet the full diff
output is empty. -/
theorem claim_C4_counterexample :
    set_index tMissOld ["k"] = Except.ok kMissOld ∧
      set_index tMissNew ["k"] = Except.ok kMissNew ∧
        [.int 1] ∈ kMissOld.keyList ∧
          [.int 1] ∈ kMissNew.keyList ∧
            normRow kMissOld (commonColsK kMissOld kMissNew) [.int 1] ≠
                normRow kMissNew (commonColsK kMissOld kMissNew) [.int 1] ∧
              diff_pd tMissOld tMissNew ["k"] = .ok [] := by
  refine ⟨rfl, rfl, by decide, by decide, by decide, ?_⟩
  have h1 : set_index tMissOld ["k"] = Except.ok kMissOld := rfl
  have h2 : set_index tMissNew ["k"] = Except.ok kMissNew := rfl
  have h3 : diff_pdK kMissOld kMissNew = [] := by decide
  simp [diff_pd, h1, h2, h3]

/-- Witness for C4 (amended) on the running example at the removed
key 2. -/
theorem claim_C4_witness :
    (¬ ([.int 2] ∈ (removedTableK kScenario kScenarioNew).keyList ∧
        [.int 2] ∈ (addedTableK kScenario kScenarioNew).keyList) ∧
      ¬ ([.int 2] ∈ (removedTableK kScenario kScenarioNew).keyList ∧
        [.int 2] ∈ (changedTableK kScenario kScenarioNew).keyList) ∧
        ¬ ([.int 2] ∈ (addedTableK kScenario kScenarioNew).keyList ∧
          [.int 2] ∈ (changedTableK kScenario kScenarioNew).keyList)) ∧
      (([.int 2] ∈ (removedTableK kScenario kScenarioNew).keyList ∨
          [.int 2] ∈ (addedTableK kScenario kScenarioNew).keyList ∨
          [.int 2] ∈ (changedTableK kScenario kScenarioNew).keyList) ↔
        (([.int 2] ∈ kScenario.keyList ∨ [.int 2] ∈ kScenarioNew.keyList) ∧
          ¬ ([.int 2] ∈ commonKeysK kScenario kScenarioNew ∧
            normRowsEq kScenario kScenarioNew [.int 2] = true))) :=
  claim_C4_amended tScenario ["id"] kScenario kScenarioNew [.int 2]
    rfl (by decide) (by decide)

/-- Claim C8 (amended): output names are among removed, added, changed;
each of the three tables is present exactly when it is non-empty in the
pandas sense — at least one row AND at least one column (a result of
keys only, with no data columns, is dropped even when it has rows) — and
when none qualifies the output is the empty mapping. -/
theorem claim_C8_amended (old_df new_df : Table) (idx : List String)
    (ko kn : KTable) (out : List (String × KTable))
    (hO : set_index old_df idx = .ok ko) (hN : set_index new_df idx = .ok kn)
    (hout : diff_pd old_df new_df idx = .ok out) :
    (∀ p ∈ out, p.1 = "removed" ∨ p.1 = "added" ∨ p.1 = "changed") ∧
      (("removed" ∈ out.map Prod.fst ↔ (removedTableK ko kn).isEmpty = false) ∧
        ("added" ∈ out.map Prod.fst ↔ (addedTableK ko kn).isEmpty = false) ∧
          ("changed" ∈ out.map Prod.fst ↔ (changedTableK ko kn).isEmpty = false)) ∧
        ((removedTableK ko kn).isEmpty = true →
          (addedTableK ko kn).isEmpty = true →
            (changedTableK ko kn).isEmpty = true → out = []) := by
  have hkk : out = diff_pdK ko kn := by
    unfold diff_pd at hout
    rw [hO, hN] at hout
    exact (Except.ok.inj hout).symm
  subst hkk
  refine ⟨fun p hp => diff_pdK_names ko kn p hp, ⟨?_, ?_, ?_⟩,
    diff_pdK_nil ko kn⟩
  · rw [diff_pdK_mem_fst]
    simp
  · rw [diff_pdK_mem_fst]
    simp
  · rw [diff_pdK_mem_fst]
    simp

/-- Old table consisting of the key column only. -/
def tKeyOnlyOld : Table := { cols := ["k"], rows := [[.int 1]] }

/-- New key-only table with a different key. -/
def tKeyOnlyNew : Table := { cols := ["k"], rows := [[.int 2]] }

/-- `tKeyOnlyOld` after `set_index` on k: no data columns remain. -/
def kKeyOnlyOld : KTable := { idx := ["k"], cols := [], rows := [([.int 1], [])] }

/-- `tKeyOnlyNew` after `set_index` on k. -/
def kKeyOnlyNew : KTable := { idx := ["k"], cols := [], rows := [([.int 2], [])] }

/-- Counterexample to C8 as stated: with key-only tables the removed
table holds one row (key 1), yet the output is the empty mapping,
because a frame with no columns is empty in the pandas sense. -/
theorem claim_C8_counterexample :
    set_index tKeyOnlyOld ["k"] = Except.ok kKeyOnlyOld ∧
      set_index tKeyOnlyNew ["k"] = Except.ok kKeyOnlyNew ∧
        (removedTableK kKeyOnlyOld kKeyOnlyNew).rows ≠ [] ∧
          diff_pd tKeyOnlyOld tKeyOnlyNew ["k"] = .ok [] := by
  refine ⟨rfl, rfl, by decide, ?_⟩
  have h1 : set_index tKeyOnlyOld ["k"] = Except.ok kKeyOnlyOld := rfl
  have h2 : set_index tKeyOnlyNew ["k"] = Except.ok kKeyOnlyNew := rfl
  have h3 : diff_pdK kKeyOnlyOld kKeyOnlyNew = [] := by decide
  simp [diff_pd, h1, h2, h3]

/-- The full diff output of the running example. -/
def outScenario : List (String × KTable) :=
  [("removed", KTable.mk ["id"] ["name", "age"]
      [([.int 2], [.str "Bob", .int 25])]),
   ("added", KTable.mk ["id"] ["name", "age"]
      [([.int 3], [.str "Carl", .int 40])]),
   ("changed", KTable.mk ["id"] ["name", "age"]
      [([.int 1], [.str "Alice", .str "30 ---> 31"])])]

/-- Witness for C8 (amended) on the running example, whose three result
tables are all non-empty and all present. -/
theorem claim_C8_witness :
    (∀ p ∈ outScenario, p.1 = "removed" ∨ p.1 = "added" ∨ p.1 = "changed") ∧
      (("removed" ∈ outScenario.map Prod.fst ↔
          (removedTableK kScenario kScenarioNew).isEmpty = false) ∧
        ("added" ∈ outScenario.map Prod.fst ↔
          (addedTableK kScenario kScenarioNew).isEmpty = false) ∧
          ("changed" ∈ outScenario.map Prod.fst ↔
            (changedTableK kScenario kScenarioNew).isEmpty = false)) ∧
        ((removedTableK kScenario kScenarioNew).isEmpty = true →
          (addedTableK kScenario kScenarioNew).isEmpty = true →
            (changedTableK kScenario kScenarioNew).isEmpty = true →
              outScenario = []) :=
  claim_C8_amended tScenario tScenarioNew ["id"] kScenario kScenarioNew
    outScenario rfl rfl
    (by
      have h1 : set_index tScenario ["id"] = Except.ok kScenario := rfl
      have h2 : set_index tScenarioNew ["id"] = Except.ok kScenarioNew := rfl
      have h3 : diff_pdK kScenario kScenarioNew = outScenario := by decide
      simp [diff_pd, h1, h2, h3])

/-- Claim C9: the changed table's data columns are exactly the non-key
columns present in both inputs (the key columns form its index), and the
changed classification reads only shared columns — replacing either
input by any table with the same keys, the same shared columns and the
same cells on them leaves the changed key set unchanged, so a column
present in one table only (old or new) never causes a row to be
classified as changed. -/
theorem claim_C9 (old_df new_df : Table) (idx : List String)
    (ko kn : KTable) (c : String)
    (hO : set_index old_df idx = .ok ko) (hN : set_index new_df idx = .ok kn) :
    (c ∈ (changedTableK ko kn).cols ↔
        (c ∈ old_df.cols ∧ c ∈ new_df.cols ∧ ¬ c ∈ idx)) ∧
      (∀ ko2 : KTable, ko2.idx = ko.idx → ko2.keyList = ko.keyList →
        ko2.cols.filter (fun c2 => decide (c2 ∈ kn.cols)) =
            ko.cols.filter (fun c2 => decide (c2 ∈ kn.cols)) →
        (∀ j ∈ commonKeysK ko kn, ∀ c2 ∈ commonColsK ko kn,
            ko2.cellD j c2 = ko.cellD j c2) →
        changedKeysK ko2 kn = changedKeysK ko kn) ∧
        (∀ kn2 : KTable, kn2.keyList = kn.keyList →
          ko.cols.filter (fun c2 => decide (c2 ∈ kn2.cols)) =
              ko.cols.filter (fun c2 => decide (c2 ∈ kn.cols)) →
          (∀ j ∈ commonKeysK ko kn, ∀ c2 ∈ commonColsK ko kn,
              kn2.cellD j c2 = kn.cellD j c2) →
          changedKeysK ko kn2 = changedKeysK ko kn) := by
  refine ⟨?_, ?_, ?_⟩
  · show c ∈ commonColsK ko kn ↔ _
    rw [mem_commonColsK, set_index_cols old_df idx ko hO,
      set_index_cols new_df idx kn hN]
    simp only [List.mem_filter, Bool.not_eq_eq_eq_not, Bool.not_true,
      decide_eq_false_iff_not]
    tauto
  · intro ko2 hidx hkeys hcols hcells
    have hcc : commonColsK ko2 kn = commonColsK ko kn := hcols
    have hck : commonKeysK ko2 kn = commonKeysK ko kn := by
      unfold commonKeysK
      rw [hkeys]
    have hcomb : combinedRows ko2 kn = combinedRows ko kn := by
      rw [combinedRows_eq, combinedRows_eq, hcc, hck]
      have hnr : ∀ j ∈ commonKeysK ko kn,
          j ++ normRow ko2 (commonColsK ko kn) j =
            j ++ normRow ko (commonColsK ko kn) j := by
        intro j hj
        have : normRow ko2 (commonColsK ko kn) j =
            normRow ko (commonColsK ko kn) j := by
          unfold normRow
          apply List.map_congr_left
          intro c2 hc2
          rw [hcells j hj c2 hc2]
        rw [this]
      rw [List.map_congr_left hnr]
    unfold changedKeysK
    rw [hcomb, hidx]
  · intro kn2 hkeys hcols hcells
    have hcc : commonColsK ko kn2 = commonColsK ko kn := hcols
    have hck : commonKeysK ko kn2 = commonKeysK ko kn := by
      unfold commonKeysK
      rw [hkeys]
    have hcomb : combinedRows ko kn2 = combinedRows ko kn := by
      rw [combinedRows_eq, combinedRows_eq, hcc, hck]
      have hnr : ∀ j ∈ commonKeysK ko kn,
          j ++ normRow kn2 (commonColsK ko kn) j =
            j ++ normRow kn (commonColsK ko kn) j := by
        intro j hj
        have : normRow kn2 (commonColsK ko kn) j =
            normRow kn (commonColsK ko kn) j := by
          unfold normRow
          apply List.map_congr_left
          intro c2 hc2
          rw [hcells j hj c2 hc2]
        rw [this]
      rw [List.map_congr_left hnr]
    unfold changedKeysK
    rw [hcomb]

/-- Old table with a column absent from the new table. -/
def tExtraOld : Table :=
  { cols := ["k", "a", "extra"], rows := [[.int 1, .str "x", .str "z"]] }

/-- New table without the extra column. -/
def tExtraNew : Table :=
  { cols := ["k", "a"], rows := [[.int 1, .str "y"]] }

/-- `tExtraOld` after `set_index` on k. -/
def kExtraOld : KTable :=
  { idx := ["k"], cols := ["a", "extra"],
    rows := [([.int 1], [.str "x", .str "z"])] }

/-- `tExtraNew` after `set_index` on k. -/
def kExtraNew : KTable :=
  { idx := ["k"], cols := ["a"], rows := [([.int 1], [.str "y"])] }

/-- Witness for C9 at the one-sided column named extra. -/
theorem claim_C9_witness :
    ("extra" ∈ (changedTableK kExtraOld kExtraNew).cols ↔
        ("extra" ∈ tExtraOld.cols ∧ "extra" ∈ tExtraNew.cols ∧
          ¬ "extra" ∈ ["k"])) ∧
      (∀ ko2 : KTable, ko2.idx = kExtraOld.idx →
        ko2.keyList = kExtraOld.keyList →
        ko2.cols.filter (fun c2 => decide (c2 ∈ kExtraNew.cols)) =
            kExtraOld.cols.filter (fun c2 => decide (c2 ∈ kExtraNew.cols)) →
        (∀ j ∈ commonKeysK kExtraOld kExtraNew,
          ∀ c2 ∈ commonColsK kExtraOld kExtraNew,
            ko2.cellD j c2 = kExtraOld.cellD j c2) →
        changedKeysK ko2 kExtraNew = changedKeysK kExtraOld kExtraNew) ∧
        (∀ kn2 : KTable, kn2.keyList = kExtraNew.keyList →
          kExtraOld.cols.filter (fun c2 => decide (c2 ∈ kn2.cols)) =
              kExtraOld.cols.filter (fun c2 => decide (c2 ∈ kExtraNew.cols)) →
          (∀ j ∈ commonKeysK kExtraOld kExtraNew,
            ∀ c2 ∈ commonColsK kExtraOld kExtraNew,
              kn2.cellD j c2 = kExtraNew.cellD j c2) →
          changedKeysK kExtraOld kn2 = changedKeysK kExtraOld kExtraNew) :=
  claim_C9 tExtraOld tExtraNew ["k"] kExtraOld kExtraNew "extra" rfl rfl

/-- The caller's frame store: a heap of tables addressed by position. -/
abbrev Heap := List Table

/-- Read a frame; an absent reference yields the empty frame. -/
def Heap.get (h : Heap) (r : Nat) : Table := h.getD r ⟨[], []⟩

/-- Overwrite a frame in place.  Callers may mutate; `diff_prog` below
never does, because every pandas operation inside `diff_pd` is called
without `inplace` and returns a fresh frame. -/
def Heap.write (h : Heap) (r : Nat) (t : Table) : Heap := List.set h r t

/-- `diff_pd` as the caller observes it: read the two frames out of the
store, run the diff on copies, pass the store through untouched. -/
def diff_prog (h : Heap) (rOld rNew : Nat) (idx : List String) :
    Except DiffError (Heap × List (String × KTable)) :=
  match set_index (h.get rOld) idx with
  | .error e => .error e
  | .ok ko =>
    match set_index (h.get rNew) idx with
    | .error e => .error e
    | .ok kn => .ok (h, diff_pdK ko kn)

/-- Claim C10: a diff run leaves the caller's two tables untouched: the
store after the call equals the store before it, in particular both
input tables still hold their previous columns, rows and cell values. -/
theorem claim_C10 (st st2 : Heap) (rOld rNew : Nat) (idx : List String)
    (out : List (String × KTable))
    (hrun : diff_prog st rOld rNew idx = .ok (st2, out)) :
    st2 = st ∧ st2.get rOld = st.get rOld ∧ st2.get rNew = st.get rNew := by
  unfold diff_prog at hrun
  cases h1 : set_index (st.get rOld) idx with
  | error e => rw [h1] at hrun; cases hrun
  | ok ko =>
    rw [h1] at hrun
    cases h2 : set_index (st.get rNew) idx with
    | error e => rw [h2] at hrun; cases hrun
    | ok kn =>
      rw [h2] at hrun
      have hpair := Except.ok.inj hrun
      have hh : st = st2 := congrArg Prod.fst hpair
      subst hh
      exact ⟨rfl, rfl, rfl⟩

/-- Witness for C10 on a concrete two-frame store. -/
theorem claim_C10_witness :
    ([tArrOld, tArrNew] : Heap) = [tArrOld, tArrNew] ∧
      Heap.get [tArrOld, tArrNew] 0 = Heap.get [tArrOld, tArrNew] 0 ∧
        Heap.get [tArrOld, tArrNew] 1 = Heap.get [tArrOld, tArrNew] 1 :=
  claim_C10 [tArrOld, tArrNew] [tArrOld, tArrNew] 0 1 ["k"]
    [("changed", KTable.mk ["k"] ["a"] [([.int 1], [.str "1 ---> 2"])])]
    rfl

end TableDiff
